import Mathlib

/- Verification model of p4unity (a Perforce change-content trigger guarding
   Unity .meta pairing).  The definitions below are a shallow embedding of
   src/main.go: strings are Lean Strings, the Go string sets become lists used
   only through membership, the external p4 process boundary becomes explicit
   function parameters (fstat : String -> Option String, where none models a
   failed process launch), and the process exit paths of app() become the
   constructors of RunOutcome. -/

/- Model of strings.HasPrefix from the Go standard library. -/
def goStartsWith (s pat : String) : Bool :=
  pat.toList.isPrefixOf s.toList

/- Occurrence of a character sequence inside another, scanning positions from
   the left; helper for the model of strings.Contains. -/
def seqInList (pat : List Char) : List Char → Bool
  | [] => pat.isEmpty
  | c :: rest => pat.isPrefixOf (c :: rest) || seqInList pat rest

/- Model of strings.Contains from the Go standard library. -/
def goContains (s pat : String) : Bool :=
  seqInList pat.toList s.toList

/- Model of strings.ToLower (ASCII case folding, sufficient for depot paths). -/
def goToLower (s : String) : String :=
  String.mk (s.toList.map Char.toLower)

/- Model of strings.TrimSpace. -/
def goTrimSpace (s : String) : String :=
  String.mk (((s.toList.dropWhile Char.isWhitespace).reverse.dropWhile Char.isWhitespace).reverse)

/- Model of path/filepath.Split: directory part (keeping the trailing slash)
   and leaf name, splitting after the final forward slash. -/
def filepathSplit (p : String) : String × String :=
  (String.mk ((p.toList.reverse.dropWhile (fun c => c != '/')).reverse),
   String.mk ((p.toList.reverse.takeWhile (fun c => c != '/')).reverse))

/- Model of path/filepath.Ext: the suffix of the last path element starting at
   its final dot, or the empty string when the last element has no dot. -/
def filepathExt (p : String) : String :=
  let elemRev := p.toList.reverse.takeWhile (fun c => c != '/')
  if elemRev.contains '.' then
    String.mk ((elemRev.takeWhile (fun c => c != '.') ++ ['.']).reverse)
  else ""

/- Model of the Go slice expression fadd[0 : len(fadd)-len(".meta")] used to
   strip the metadata suffix (the suffix is ASCII, so bytes and chars agree). -/
def stripMetaSuffix (p : String) : String :=
  String.mk (p.toList.take (p.toList.length - 5))

/- Insertion into the stringSet map of main.go; only membership is ever
   observed, so a duplicate-free list models the map faithfully. -/
def setInsert (s : List String) (v : String) : List String :=
  if s.contains v then s else s ++ [v]

/- The opsAdd vocabulary of main.go. -/
def opsAdd : List String := ["move/add", "add", "import"]

/- The opsDel vocabulary of main.go. -/
def opsDel : List String := ["move/delete", "delete", "purge", "archive"]

/- The opsExists vocabulary of main.go. -/
def opsExists : List String := ["edit", "move/add", "add", "import"]

/- A word character of the RE2 class backslash-w (ASCII letters, digits, underscore). -/
def isWordChar (c : Char) : Bool :=
  c.isAlphanum || c == '_'

/- A character of the RE2 class for operations: word characters plus slash. -/
def isOpChar (c : Char) : Bool :=
  isWordChar c || c == '/'

/- One match attempt of reFileRecordUnpack at a fixed start position.  The
   pattern ([^#]+)#(d+) ([w/]+)$ forces: a nonempty run of non-hash characters
   up to the first hash, a nonempty digit run, a literal space, and a nonempty
   word-or-slash run that reaches the end of the line. -/
def recordMatchAt (l : List Char) : Option (String × String × String) :=
  let g1 := l.takeWhile (fun c => c != '#')
  if g1.isEmpty then none else
  match l.dropWhile (fun c => c != '#') with
  | [] => none
  | _ :: r2 =>
    let d := r2.takeWhile Char.isDigit
    if d.isEmpty then none else
    match r2.dropWhile Char.isDigit with
    | ' ' :: r4 =>
      let w := r4.takeWhile isOpChar
      if w.isEmpty then none
      else if (r4.dropWhile isOpChar).isEmpty then some (String.mk g1, String.mk d, String.mk w)
      else none
    | _ => none

/- Leftmost-match search of reFileRecordUnpack over a record line. -/
def recordMatchFind : List Char → Option (String × String × String)
  | [] => none
  | c :: rest =>
    match recordMatchAt (c :: rest) with
    | some r => some r
    | none => recordMatchFind rest

/- Model of reFileRecordUnpack.FindStringSubmatch on one report line: none
   models the len(matches) != 4 failure path, some gives the capture groups
   (file path, revision digits, operation). -/
def parseFileRecord (item : String) : Option (String × String × String) :=
  recordMatchFind item.toList

/- One match attempt of reFindHeadActionOp at a fixed start position: the
   literal headAction, at least one whitespace character, then a nonempty
   word-or-slash run. -/
def headActionMatchAt (l : List Char) : Option String :=
  if ("headAction".toList).isPrefixOf l then
    let r := l.drop ("headAction".toList).length
    if (r.takeWhile Char.isWhitespace).isEmpty then none
    else
      let w := (r.dropWhile Char.isWhitespace).takeWhile isOpChar
      if w.isEmpty then none else some (String.mk w)
  else none

/- Leftmost-match search of reFindHeadActionOp. -/
def headActionFind : List Char → Option String
  | [] => none
  | c :: rest =>
    match headActionMatchAt (c :: rest) with
    | some r => some r
    | none => headActionFind rest

/- Model of reFindHeadActionOp.FindStringSubmatch over the fstat output. -/
def findHeadActionOp (s : String) : Option String :=
  headActionFind s.toList

/- Model of fileExistsInDepot from main.go, with the external process boundary
   made explicit: the argument is the combined output of the p4 fstat call
   (none when the call itself failed).  A failed call is an error; missing
   headAction output means absent; otherwise presence is decided by whether
   the head action is in the opsExists vocabulary. -/
def fileExistsInDepot (fstatOut : Option String) : Option Bool :=
  match fstatOut with
  | none => none
  | some out =>
    match findHeadActionOp out with
    | none => some false
    | some headOp => some (opsExists.contains headOp)

/- Model of filterStringsByType from main.go: keep the lines carrying the
   given p4 -s prefix, strip the prefix, trim, and drop lines that trimmed to
   nothing. -/
def filterStringsByType (s : List String) (p4type : String) : List String :=
  s.filterMap (fun str =>
    if goStartsWith str p4type then
      let trimmed := goTrimSpace (String.mk (str.toList.drop p4type.toList.length))
      if trimmed = "" then none else some trimmed
    else none)

/- The header block of the describe output (p4text in main.go). -/
def p4textOf (p4lines : List String) : List String :=
  filterStringsByType p4lines "text:"

/- The file-record block of the describe output (p4info in main.go). -/
def p4infoOf (p4lines : List String) : List String :=
  filterStringsByType p4lines "info1:"

/- The fields of tomlConfig (config.go) that the validation core reads; the
   perforce connection fields and the verbose-log flag only parameterize the
   external collaborators and the logger, which the model makes explicit. -/
structure tomlConfig where
  BypassKeyphrase : String
  PathWhitelist : List String

/- The four classification sets built by the record loop of app(). -/
structure classifiedSets where
  filesBeingAdded : List String
  filesBeingAddedIgnoringCase : List String
  filesBeingDeleted : List String
  filesBeingDeletedIgnoringCase : List String
deriving DecidableEq

/- The per-record body of the classification loop of app(): the tilde-directory
   skip, the dot-file skip, the whitelist gate, the /Assets/ gate, then
   insertion into the add and delete sets by operation. -/
def classifyStep (cfg : tomlConfig) (c : classifiedSets) (filePath vcsOperation : String) : classifiedSets :=
  let itemDirectory := (filepathSplit filePath).1
  let itemFilename := (filepathSplit filePath).2
  if goContains itemDirectory "~/" then c
  else if goStartsWith itemFilename "." then c
  else if !(cfg.PathWhitelist.any (fun whitelistEntry => goStartsWith itemDirectory whitelistEntry)) then c
  else if !(goContains itemDirectory "/Assets/") then c
  else
    let c1 :=
      if opsAdd.contains vcsOperation then
        { c with
          filesBeingAdded := setInsert c.filesBeingAdded filePath,
          filesBeingAddedIgnoringCase := setInsert c.filesBeingAddedIgnoringCase (goToLower filePath) }
      else c
    if opsDel.contains vcsOperation then
      { c1 with
        filesBeingDeleted := setInsert c1.filesBeingDeleted filePath,
        filesBeingDeletedIgnoringCase := setInsert c1.filesBeingDeletedIgnoringCase (goToLower filePath) }
    else c1

/- The classification loop of app() over the file-record block: the first line
   the regex cannot unpack aborts the run (modelled as Except.error carrying
   the offending line), otherwise every record is classified in order. -/
def classifyRecords (cfg : tomlConfig) : classifiedSets → List String → Except String classifiedSets
  | c, [] => Except.ok c
  | c, item :: rest =>
    match parseFileRecord item with
    | none => Except.error item
    | some (filePath, _, vcsOperation) => classifyRecords cfg (classifyStep cfg c filePath vcsOperation) rest

/- Outcome of examining one path in a validation pass: satisfied, a content
   violation (carrying the printed message), or a fatal fstat failure. -/
inductive ItemCheck where
  | ok : ItemCheck
  | violation : String → ItemCheck
  | fatal : String → ItemCheck
deriving DecidableEq

/- The add-pass body of app() for one path of filesBeingAdded.  Non-metadata
   paths require their .meta twin (exact, case-folded, or already in the
   depot); metadata paths whose base keeps no extension are directory metadata
   and pass; other metadata paths require their asset. -/
def checkAdd (c : classifiedSets) (oracle : String → Option Bool) (fadd : String) : ItemCheck :=
  if filepathExt fadd ≠ ".meta" then
    if c.filesBeingAdded.contains (fadd ++ ".meta") then ItemCheck.ok
    else if c.filesBeingAddedIgnoringCase.contains (goToLower (fadd ++ ".meta")) then ItemCheck.ok
    else
      match oracle (fadd ++ ".meta") with
      | none => ItemCheck.fatal (fadd ++ ".meta")
      | some foundInDepot =>
        if foundInDepot then ItemCheck.ok
        else ItemCheck.violation ("Missing .meta file for " ++ fadd)
  else
    if goTrimSpace (filepathExt (stripMetaSuffix fadd)) = "" then ItemCheck.ok
    else if c.filesBeingAdded.contains (stripMetaSuffix fadd) then ItemCheck.ok
    else if c.filesBeingAddedIgnoringCase.contains (goToLower (stripMetaSuffix fadd)) then ItemCheck.ok
    else
      match oracle (stripMetaSuffix fadd) with
      | none => ItemCheck.fatal (stripMetaSuffix fadd)
      | some foundInDepot =>
        if foundInDepot then ItemCheck.ok
        else ItemCheck.violation ("Missing asset for .meta file " ++ fadd)

/- The delete-pass body of app() for one path of filesBeingDeleted.  Only
   non-metadata paths are examined: their .meta twin must leave with the
   changelist or already be gone from the depot; a metadata path itself is the
   explicit no-op branch of the source. -/
def checkDel (c : classifiedSets) (oracle : String → Option Bool) (fdel : String) : ItemCheck :=
  if filepathExt fdel ≠ ".meta" then
    if c.filesBeingDeleted.contains (fdel ++ ".meta") then ItemCheck.ok
    else if c.filesBeingDeletedIgnoringCase.contains (goToLower (fdel ++ ".meta")) then ItemCheck.ok
    else
      match oracle (fdel ++ ".meta") with
      | none => ItemCheck.fatal fdel
      | some foundInDepot =>
        if foundInDepot then ItemCheck.violation ("Need to delete the orphaned .meta for " ++ fdel)
        else ItemCheck.ok
  else ItemCheck.ok

/- Result of a whole validation pass: a fatal fstat failure aborts it,
   otherwise the violations accumulate in order. -/
inductive PassOutcome where
  | fatal : String → PassOutcome
  | okay : List String → PassOutcome
deriving DecidableEq

/- Run one validation pass over a classification set.  Violations never stop
   the scan; a fatal fstat failure does, mirroring the early return of app(). -/
def runPass (check : String → ItemCheck) : List String → PassOutcome
  | [] => PassOutcome.okay []
  | p :: rest =>
    match check p with
    | ItemCheck.fatal q => PassOutcome.fatal q
    | ItemCheck.ok => runPass check rest
    | ItemCheck.violation m =>
      match runPass check rest with
      | PassOutcome.fatal q => PassOutcome.fatal q
      | PassOutcome.okay vs => PassOutcome.okay (m :: vs)

/- The distinct exit paths of app(), keeping the error classes separate: the
   missing-changelist usage error, the two empty-report fatal errors, the
   bypass early-out, the record parse failure, the fstat failure, and the real
   verdict (allowed flag plus the violation messages printed). -/
inductive RunOutcome where
  | noSuchChangelist : RunOutcome
  | emptyHeader : RunOutcome
  | emptyFileRecords : RunOutcome
  | bypassed : RunOutcome
  | parseError : String → RunOutcome
  | fstatFatal : String → RunOutcome
  | done : Bool → List String → RunOutcome
deriving DecidableEq

/- The verdict an outcome carries, when it carries one: bypass exits 0 with no
   violations printed, so it reads as allowed with an empty violation list;
   the error exits carry no verdict at all. -/
def verdictOf : RunOutcome → Option (Bool × List String)
  | RunOutcome.bypassed => some (true, [])
  | RunOutcome.done allowed violations => some (allowed, violations)
  | _ => none

/- Model of app() from main.go, starting after the describe call: the input is
   the describe output split into lines, the configuration, and the external
   fstat collaborator.  The order of checks is exactly that of the source:
   missing changelist, empty header, empty file-record block, bypass scan of
   the header lines after the first, record classification, add pass, delete
   pass, verdict. -/
def app (cfg : tomlConfig) (fstat : String → Option String) (p4lines : List String) : RunOutcome :=
  if goContains (p4lines.headD "") "no such changelist" then RunOutcome.noSuchChangelist
  else if (p4textOf p4lines).length = 0 then RunOutcome.emptyHeader
  else if (p4infoOf p4lines).length = 0 then RunOutcome.emptyFileRecords
  else if ((p4textOf p4lines).drop 1).any (fun line => goContains line cfg.BypassKeyphrase) then RunOutcome.bypassed
  else
    match classifyRecords cfg ⟨[], [], [], []⟩ (p4infoOf p4lines) with
    | Except.error item => RunOutcome.parseError item
    | Except.ok sets =>
      match runPass (checkAdd sets (fun depotPath => fileExistsInDepot (fstat depotPath))) sets.filesBeingAdded with
      | PassOutcome.fatal q => RunOutcome.fstatFatal q
      | PassOutcome.okay addViolations =>
        match runPass (checkDel sets (fun depotPath => fileExistsInDepot (fstat depotPath))) sets.filesBeingDeleted with
        | PassOutcome.fatal q => RunOutcome.fstatFatal q
        | PassOutcome.okay delViolations =>
          RunOutcome.done (addViolations ++ delViolations).isEmpty (addViolations ++ delViolations)

/- The empty pattern is found in every character list, mirroring the Go
   strings.Contains contract for an empty substring. -/
lemma seqInList_nil_pat (l : List Char) : seqInList [] l = true := by
  cases l <;> rfl

/- Model of the Go fact Contains(s, empty) = true. -/
lemma goContains_nil_pat (s : String) : goContains s "" = true :=
  seqInList_nil_pat s.toList

/- With an empty whitelist the policy filter drops every record, so one
   classification step never changes the sets. -/
lemma classifyStep_emptyWhitelist (cfg : tomlConfig) (c : classifiedSets)
    (filePath vcsOperation : String) (hw : cfg.PathWhitelist = []) :
    classifyStep cfg c filePath vcsOperation = c := by
  unfold classifyStep
  rw [hw]
  simp

/- With an empty whitelist, classification of any all-parsable record block
   leaves the sets untouched. -/
lemma classifyRecords_emptyWhitelist (cfg : tomlConfig) (hw : cfg.PathWhitelist = []) :
    ∀ (items : List String) (c : classifiedSets),
      (∀ i ∈ items, parseFileRecord i ≠ none) →
      classifyRecords cfg c items = Except.ok c := by
  intro items
  induction items with
  | nil => intro c _; rfl
  | cons a rest ih =>
    intro c hp
    cases hpa : parseFileRecord a with
    | none => exact absurd hpa (hp a (List.mem_cons_self a rest))
    | some r =>
      obtain ⟨fp, rev, op⟩ := r
      have htail := ih c (fun i hi => hp i (List.mem_cons_of_mem a hi))
      simp only [classifyRecords, hpa]
      rw [classifyStep_emptyWhitelist cfg c fp op hw]
      exact htail

/- If some record line fails the unpack regex, classification aborts with a
   parse error carrying an unparsable line. -/
lemma classifyRecords_error_of_parse_none (cfg : tomlConfig) :
    ∀ (items : List String) (c : classifiedSets),
      (∃ i ∈ items, parseFileRecord i = none) →
      ∃ j, classifyRecords cfg c items = Except.error j ∧ parseFileRecord j = none := by
  intro items
  induction items with
  | nil =>
    intro c h
    obtain ⟨i, hi, _⟩ := h
    exact absurd hi (List.not_mem_nil i)
  | cons a rest ih =>
    intro c h
    cases hpa : parseFileRecord a with
    | none => exact ⟨a, by simp [classifyRecords, hpa], hpa⟩
    | some r =>
      obtain ⟨fp, rev, op⟩ := r
      obtain ⟨i, hi, hni⟩ := h
      rcases List.mem_cons.mp hi with heq | hmem
      · subst heq
        rw [hpa] at hni
        cases hni
      · obtain ⟨j, hj1, hj2⟩ := ih (classifyStep cfg c fp op) ⟨i, hmem, hni⟩
        refine ⟨j, ?_, hj2⟩
        simp only [classifyRecords, hpa]
        exact hj1

/- A pass that reaches a path whose check is fatal ends fatally (possibly on
   an earlier fatal path). -/
lemma runPass_fatal_of_mem (check : String → ItemCheck) (q : String) :
    ∀ (ps : List String) (p : String), p ∈ ps → check p = ItemCheck.fatal q →
      ∃ r, runPass check ps = PassOutcome.fatal r := by
  intro ps
  induction ps with
  | nil => intro p hp _; exact absurd hp (List.not_mem_nil p)
  | cons a rest ih =>
    intro p hp hc
    rcases List.mem_cons.mp hp with heq | hmem
    · subst heq
      exact ⟨q, by simp [runPass, hc]⟩
    · cases ha : check a with
      | ok =>
        obtain ⟨r, hr⟩ := ih p hmem hc
        exact ⟨r, by simp [runPass, ha, hr]⟩
      | violation m =>
        obtain ⟨r, hr⟩ := ih p hmem hc
        exact ⟨r, by simp [runPass, ha, hr]⟩
      | fatal r2 => exact ⟨r2, by simp [runPass, ha]⟩

/- Example configuration used by concrete witnesses: the bypass phrase of the
   README and a whitelisted depot root. -/
def cfgEx : tomlConfig := ⟨"p4unity-bypass", ["//Depot/"]⟩

/- Configuration with an empty whitelist. -/
def cfgNoWhitelist : tomlConfig := ⟨"p4unity-bypass", []⟩

/- Configuration with an empty bypass key-phrase. -/
def cfgEmptyKey : tomlConfig := ⟨"", []⟩

/- A describe output whose header carries the bypass phrase after the first
   line but whose file-record block is empty. -/
def linesNoRecords : List String :=
  ["text: Change 1 by someone", "text: please p4unity-bypass this"]

/- The same report with one file record, so the bypass check is reached. -/
def linesBypassed : List String :=
  ["text: Change 1 by someone", "text: please p4unity-bypass this",
   "info1: //Depot/Assets/a.png#1 add"]

/- A report with one well-formed add record and no bypass phrase. -/
def linesOneAdd : List String :=
  ["text: Change 5 by someone", "info1: //Depot/Assets/a.png#1 add"]

/- A report whose single file-record line cannot be unpacked by the regex. -/
def linesBadRecord : List String :=
  ["text: Change 4 by someone", "info1: this line is malformed"]

/- A report with two header lines and no file records. -/
def linesTwoHeaders : List String :=
  ["text: Change 3 by someone", "text: second line"]

/- The same two-header report with one file record. -/
def linesTwoHeadersOneRecord : List String :=
  ["text: Change 3 by someone", "text: second line",
   "info1: //Depot/Assets/a.png#1 add"]

/- An fstat collaborator whose output never mentions headAction, so every
   remote lookup reports the path absent. -/
def fstatEmptyOut : String → Option String := fun _ => some ""

/- An fstat collaborator reporting an exists-like head action for every path. -/
def fstatHeadEdit : String → Option String := fun _ => some "headAction edit"

/- An fstat collaborator whose process launch always fails. -/
def fstatFailing : String → Option String := fun _ => none

/- The classification produced by linesOneAdd under cfgEx. -/
def setsOneAdd : classifiedSets :=
  ⟨["//Depot/Assets/a.png"], ["//depot/assets/a.png"], [], []⟩

/- Classification sets of a changelist adding Foo.PNG and foo.png.meta. -/
def setsCasePair : classifiedSets :=
  ⟨["//Depot/Assets/Foo.PNG", "//Depot/Assets/foo.png.meta"],
   ["//depot/assets/foo.png", "//depot/assets/foo.png.meta"], [], []⟩

/- Classification sets of a changelist deleting only b.png. -/
def setsDelOnly : classifiedSets :=
  ⟨[], [], ["//Depot/Assets/b.png"], ["//depot/assets/b.png"]⟩

/-- C1 (corrected): in the source the empty-header and empty-file-record fatal
checks run before the bypass scan, so bypass only takes effect on a report
whose two blocks are non-empty; under that proviso, a bypass phrase in any
header line after the first terminates the run bypassed, with verdict allowed
and an empty violation list. -/
theorem p4unity_c1 (cfg : tomlConfig) (fstat : String → Option String) (p4lines : List String)
    (h0 : goContains (p4lines.headD "") "no such changelist" = false)
    (h1 : (p4textOf p4lines).length ≠ 0)
    (h2 : (p4infoOf p4lines).length ≠ 0)
    (h3 : ((p4textOf p4lines).drop 1).any (fun line => goContains line cfg.BypassKeyphrase) = true) :
    app cfg fstat p4lines = RunOutcome.bypassed ∧
      verdictOf (app cfg fstat p4lines) = some (true, []) := by
  have happ : app cfg fstat p4lines = RunOutcome.bypassed := by
    unfold app
    rw [h0, h3]
    simp [h1, h2]
  exact ⟨happ, by rw [happ]; rfl⟩

/-- C1 counterexample: a report whose second header line contains the bypass
phrase but whose file-record block is empty is a hard empty-report error, not
an allowed bypass, because the source checks emptiness first. -/
theorem p4unity_c1_counterexample :
    ((p4textOf linesNoRecords).drop 1).any
        (fun line => goContains line cfgEx.BypassKeyphrase) = true ∧
      app cfgEx fstatEmptyOut linesNoRecords = RunOutcome.emptyFileRecords ∧
      verdictOf (app cfgEx fstatEmptyOut linesNoRecords) = none := by
  decide

/-- C1 witness: with the file-record block non-empty, the bypass phrase in the
second header line yields the bypass outcome with verdict allowed and no
violations. -/
theorem p4unity_c1_witness :
    app cfgEx fstatEmptyOut linesBypassed = RunOutcome.bypassed ∧
      verdictOf (app cfgEx fstatEmptyOut linesBypassed) = some (true, []) :=
  p4unity_c1 cfgEx fstatEmptyOut linesBypassed (by decide) (by decide) (by decide) (by decide)

/-- C2: in the add pass, a non-metadata added path is a violation exactly when
its .meta twin is in neither the exact-case nor the case-folded added set and
the remote oracle reports the twin absent. -/
theorem p4unity_c2 (c : classifiedSets) (fstat : String → Option String) (p : String)
    (h : filepathExt p ≠ ".meta") :
    (∃ m, checkAdd c (fun depotPath => fileExistsInDepot (fstat depotPath)) p = ItemCheck.violation m) ↔
      (c.filesBeingAdded.contains (p ++ ".meta") = false ∧
       c.filesBeingAddedIgnoringCase.contains (goToLower (p ++ ".meta")) = false ∧
       fileExistsInDepot (fstat (p ++ ".meta")) = some false) := by
  simp only [checkAdd]
  rw [if_pos h]
  cases h1 : c.filesBeingAdded.contains (p ++ ".meta") with
  | true => simp [h1]
  | false =>
    cases h2 : c.filesBeingAddedIgnoringCase.contains (goToLower (p ++ ".meta")) with
    | true => simp [h1, h2]
    | false =>
      cases ho : fileExistsInDepot (fstat (p ++ ".meta")) with
      | none => simp [h1, h2, ho]
      | some b => cases b <;> simp [h1, h2, ho]

/-- C2 witness: adding Foo.PNG together with foo.png.meta is a satisfied
pairing, since the case-folded twin sits in the case-insensitive added set. -/
theorem p4unity_c2_witness :
    filepathExt "//Depot/Assets/Foo.PNG" ≠ ".meta" ∧
      ((∃ m, checkAdd setsCasePair (fun depotPath => fileExistsInDepot (fstatEmptyOut depotPath))
          "//Depot/Assets/Foo.PNG" = ItemCheck.violation m) ↔
        (setsCasePair.filesBeingAdded.contains ("//Depot/Assets/Foo.PNG" ++ ".meta") = false ∧
         setsCasePair.filesBeingAddedIgnoringCase.contains
            (goToLower ("//Depot/Assets/Foo.PNG" ++ ".meta")) = false ∧
         fileExistsInDepot (fstatEmptyOut ("//Depot/Assets/Foo.PNG" ++ ".meta")) = some false)) :=
  ⟨by decide, p4unity_c2 setsCasePair fstatEmptyOut "//Depot/Assets/Foo.PNG" (by decide)⟩

/-- C3: in the delete pass, a non-metadata deleted path is an orphaned-metadata
violation exactly when its .meta twin is in neither deleted set and the remote
oracle reports the twin still present in an exists-like state; an absent twin
produces no violation. -/
theorem p4unity_c3 (c : classifiedSets) (fstat : String → Option String) (p : String)
    (h : filepathExt p ≠ ".meta") :
    (∃ m, checkDel c (fun depotPath => fileExistsInDepot (fstat depotPath)) p = ItemCheck.violation m) ↔
      (c.filesBeingDeleted.contains (p ++ ".meta") = false ∧
       c.filesBeingDeletedIgnoringCase.contains (goToLower (p ++ ".meta")) = false ∧
       fileExistsInDepot (fstat (p ++ ".meta")) = some true) := by
  simp only [checkDel]
  rw [if_pos h]
  cases h1 : c.filesBeingDeleted.contains (p ++ ".meta") with
  | true => simp [h1]
  | false =>
    cases h2 : c.filesBeingDeletedIgnoringCase.contains (goToLower (p ++ ".meta")) with
    | true => simp [h1, h2]
    | false =>
      cases ho : fileExistsInDepot (fstat (p ++ ".meta")) with
      | none => simp [h1, h2, ho]
      | some b => cases b <;> simp [h1, h2, ho]

/-- C3 witness: deleting b.png while the oracle still reports b.png.meta under
an exists-like head action is exactly the violation case of the scenario. -/
theorem p4unity_c3_witness :
    filepathExt "//Depot/Assets/b.png" ≠ ".meta" ∧
      ((∃ m, checkDel setsDelOnly (fun depotPath => fileExistsInDepot (fstatHeadEdit depotPath))
          "//Depot/Assets/b.png" = ItemCheck.violation m) ↔
        (setsDelOnly.filesBeingDeleted.contains ("//Depot/Assets/b.png" ++ ".meta") = false ∧
         setsDelOnly.filesBeingDeletedIgnoringCase.contains
            (goToLower ("//Depot/Assets/b.png" ++ ".meta")) = false ∧
         fileExistsInDepot (fstatHeadEdit ("//Depot/Assets/b.png" ++ ".meta")) = some true)) :=
  ⟨by decide, p4unity_c3 setsDelOnly fstatHeadEdit "//Depot/Assets/b.png" (by decide)⟩

/-- C4: an added metadata path whose base keeps no extension after stripping
.meta is directory metadata: the add pass approves it for every oracle, so no
violation arises and the oracle is never consulted. -/
theorem p4unity_c4 (c : classifiedSets) (oracle : String → Option Bool) (p : String)
    (h : filepathExt p = ".meta")
    (hb : goTrimSpace (filepathExt (stripMetaSuffix p)) = "") :
    checkAdd c oracle p = ItemCheck.ok := by
  simp only [checkAdd]
  rw [if_neg (not_not_intro h), if_pos hb]

/-- C4 witness: the directory metadata Textures.meta passes the add pass even
under an oracle whose every lookup fails, so the oracle is demonstrably never
consulted. -/
theorem p4unity_c4_witness :
    filepathExt "//Depot/Assets/Textures.meta" = ".meta" ∧
      goTrimSpace (filepathExt (stripMetaSuffix "//Depot/Assets/Textures.meta")) = "" ∧
      checkAdd setsOneAdd (fun _ => none) "//Depot/Assets/Textures.meta" = ItemCheck.ok :=
  ⟨by decide, by decide,
    p4unity_c4 setsOneAdd (fun _ => none) "//Depot/Assets/Textures.meta" (by decide) (by decide)⟩

/-- C5: the delete pass approves every metadata path for every oracle: a .meta
file deleted without its asset is never flagged and triggers no remote
lookup. -/
theorem p4unity_c5 (c : classifiedSets) (oracle : String → Option Bool) (p : String)
    (h : filepathExt p = ".meta") :
    checkDel c oracle p = ItemCheck.ok := by
  simp only [checkDel]
  rw [if_neg (not_not_intro h)]

/-- C5 witness: deleting b.png.meta alone passes the delete pass even under an
oracle whose every lookup fails. -/
theorem p4unity_c5_witness :
    filepathExt "//Depot/Assets/b.png.meta" = ".meta" ∧
      checkDel setsDelOnly (fun _ => none) "//Depot/Assets/b.png.meta" = ItemCheck.ok :=
  ⟨by decide, p4unity_c5 setsDelOnly (fun _ => none) "//Depot/Assets/b.png.meta" (by decide)⟩

/-- C6: when a run reaches the file-record loop (the report is present, its
blocks non-empty and no bypass fires) and some record line fails the unpack
regex, the whole run aborts with a parse error naming an unparsable line, and
no verdict of any kind is produced. -/
theorem p4unity_c6 (cfg : tomlConfig) (fstat : String → Option String) (p4lines : List String)
    (h0 : goContains (p4lines.headD "") "no such changelist" = false)
    (h1 : (p4textOf p4lines).length ≠ 0)
    (h3 : ((p4textOf p4lines).drop 1).any (fun line => goContains line cfg.BypassKeyphrase) = false)
    (hbad : ∃ i ∈ p4infoOf p4lines, parseFileRecord i = none) :
    ∃ item, parseFileRecord item = none ∧
      app cfg fstat p4lines = RunOutcome.parseError item ∧
      verdictOf (app cfg fstat p4lines) = none := by
  have h2 : (p4infoOf p4lines).length ≠ 0 := by
    obtain ⟨i, hi, _⟩ := hbad
    intro hz
    rw [List.length_eq_zero] at hz
    rw [hz] at hi
    exact List.not_mem_nil i hi
  obtain ⟨j, hj1, hj2⟩ := classifyRecords_error_of_parse_none cfg (p4infoOf p4lines) ⟨[], [], [], []⟩ hbad
  have happ : app cfg fstat p4lines = RunOutcome.parseError j := by
    unfold app
    rw [h0, h3, hj1]
    simp [h1, h2]
  exact ⟨j, hj2, happ, by rw [happ]; rfl⟩

/-- C6 witness: a report whose single record line carries no hash-revision
shape aborts the run with a parse error and no verdict. -/
theorem p4unity_c6_witness :
    ∃ item, parseFileRecord item = none ∧
      app cfgEx fstatEmptyOut linesBadRecord = RunOutcome.parseError item ∧
      verdictOf (app cfgEx fstatEmptyOut linesBadRecord) = none :=
  p4unity_c6 cfgEx fstatEmptyOut linesBadRecord (by decide) (by decide) (by decide)
    ⟨"this line is malformed", by decide, by decide⟩

/-- C7: if a run reaches the passes and some classified path needs a remote
lookup whose fstat call errors, the run aborts with the fstat-fatal outcome
and carries no verdict; the hypothesis covers both the add pass and the
delete pass. -/
theorem p4unity_c7 (cfg : tomlConfig) (fstat : String → Option String) (p4lines : List String)
    (sets : classifiedSets) (p : String)
    (h0 : goContains (p4lines.headD "") "no such changelist" = false)
    (h1 : (p4textOf p4lines).length ≠ 0)
    (h2 : (p4infoOf p4lines).length ≠ 0)
    (h3 : ((p4textOf p4lines).drop 1).any (fun line => goContains line cfg.BypassKeyphrase) = false)
    (h4 : classifyRecords cfg ⟨[], [], [], []⟩ (p4infoOf p4lines) = Except.ok sets)
    (h5 : filepathExt p ≠ ".meta")
    (h6 : fstat (p ++ ".meta") = none)
    (h7 : (p ∈ sets.filesBeingAdded ∧
            sets.filesBeingAdded.contains (p ++ ".meta") = false ∧
            sets.filesBeingAddedIgnoringCase.contains (goToLower (p ++ ".meta")) = false) ∨
          (p ∈ sets.filesBeingDeleted ∧
            sets.filesBeingDeleted.contains (p ++ ".meta") = false ∧
            sets.filesBeingDeletedIgnoringCase.contains (goToLower (p ++ ".meta")) = false)) :
    (∃ q, app cfg fstat p4lines = RunOutcome.fstatFatal q) ∧
      verdictOf (app cfg fstat p4lines) = none := by
  rcases h7 with ⟨hmem, ha, hb⟩ | ⟨hmem, ha, hb⟩
  · have hitem : checkAdd sets (fun depotPath => fileExistsInDepot (fstat depotPath)) p =
        ItemCheck.fatal (p ++ ".meta") := by
      simp only [checkAdd]
      rw [if_pos h5, ha, hb, h6]
      simp [fileExistsInDepot]
    obtain ⟨r, hr⟩ := runPass_fatal_of_mem _ _ sets.filesBeingAdded p hmem hitem
    have happ : app cfg fstat p4lines = RunOutcome.fstatFatal r := by
      unfold app
      rw [h0, h3, h4]
      simp [h1, h2, hr]
    exact ⟨⟨r, happ⟩, by rw [happ]; rfl⟩
  · have hitem : checkDel sets (fun depotPath => fileExistsInDepot (fstat depotPath)) p =
        ItemCheck.fatal p := by
      simp only [checkDel]
      rw [if_pos h5, ha, hb, h6]
      simp [fileExistsInDepot]
    obtain ⟨r, hr⟩ := runPass_fatal_of_mem _ _ sets.filesBeingDeleted p hmem hitem
    cases hv : runPass (checkAdd sets (fun depotPath => fileExistsInDepot (fstat depotPath)))
        sets.filesBeingAdded with
    | fatal q =>
      have happ : app cfg fstat p4lines = RunOutcome.fstatFatal q := by
        unfold app
        rw [h0, h3, h4]
        simp [h1, h2, hv]
      exact ⟨⟨q, happ⟩, by rw [happ]; rfl⟩
    | okay vs =>
      have happ : app cfg fstat p4lines = RunOutcome.fstatFatal r := by
        unfold app
        rw [h0, h3, h4]
        simp [h1, h2, hv, hr]
      exact ⟨⟨r, happ⟩, by rw [happ]; rfl⟩

/-- C7 witness: a changelist adding a.png with no twin in the changelist, under
an fstat collaborator whose launch fails, aborts the whole run fatally with no
verdict. -/
theorem p4unity_c7_witness :
    (∃ q, app cfgEx fstatFailing linesOneAdd = RunOutcome.fstatFatal q) ∧
      verdictOf (app cfgEx fstatFailing linesOneAdd) = none :=
  p4unity_c7 cfgEx fstatFailing linesOneAdd setsOneAdd "//Depot/Assets/a.png"
    (by decide) (by decide) (by decide) (by decide) (by rfl) (by decide) rfl
    (Or.inl ⟨by decide, by decide, by decide⟩)

/-- C8: with an empty whitelist every parsed record is dropped by the policy
filter, so any well-formed, non-bypassed report is allowed with no violations,
for every fstat collaborator whatsoever: the oracle is never consulted and the
empty whitelist is not an error. -/
theorem p4unity_c8 (cfg : tomlConfig) (p4lines : List String)
    (hw : cfg.PathWhitelist = [])
    (h0 : goContains (p4lines.headD "") "no such changelist" = false)
    (h1 : (p4textOf p4lines).length ≠ 0)
    (h2 : (p4infoOf p4lines).length ≠ 0)
    (h3 : ((p4textOf p4lines).drop 1).any (fun line => goContains line cfg.BypassKeyphrase) = false)
    (hp : ∀ i ∈ p4infoOf p4lines, parseFileRecord i ≠ none)
    (fstat : String → Option String) :
    app cfg fstat p4lines = RunOutcome.done true [] := by
  have hcl : classifyRecords cfg ⟨[], [], [], []⟩ (p4infoOf p4lines) =
      Except.ok ⟨[], [], [], []⟩ :=
    classifyRecords_emptyWhitelist cfg hw (p4infoOf p4lines) ⟨[], [], [], []⟩ hp
  unfold app
  rw [h0, h3, hcl]
  simp [h1, h2, runPass]

/-- C8 witness: an empty whitelist allows a one-record report even when every
fstat launch would fail, showing no oracle call is made. -/
theorem p4unity_c8_witness :
    app cfgNoWhitelist fstatFailing linesOneAdd = RunOutcome.done true [] :=
  p4unity_c8 cfgNoWhitelist linesOneAdd rfl (by decide) (by decide) (by decide) (by decide)
    (by decide) fstatFailing

/-- C9: the validator is a pure function of the configuration, the oracle
collaborator and the report lines: equal reports give identical outcomes and
identical verdicts, there being no mutable state carried across runs. -/
theorem p4unity_c9 (cfg : tomlConfig) (fstat : String → Option String)
    (report1 report2 : List String) (h : report1 = report2) :
    app cfg fstat report1 = app cfg fstat report2 ∧
      verdictOf (app cfg fstat report1) = verdictOf (app cfg fstat report2) := by
  subst h
  exact ⟨rfl, rfl⟩

/-- C9 witness: two runs on the same concrete report agree. -/
theorem p4unity_c9_witness :
    app cfgEx fstatEmptyOut linesOneAdd = app cfgEx fstatEmptyOut linesOneAdd ∧
      verdictOf (app cfgEx fstatEmptyOut linesOneAdd) =
        verdictOf (app cfgEx fstatEmptyOut linesOneAdd) :=
  p4unity_c9 cfgEx fstatEmptyOut linesOneAdd linesOneAdd rfl

/-- C10 (corrected): with an empty bypass key-phrase, a report is
unconditionally bypassed provided it also passes the checks that precede the
bypass scan in the source: a found changelist, at least two header lines, and
a non-empty file-record block; with an empty file-record block the run is a
hard error instead. -/
theorem p4unity_c10 (cfg : tomlConfig) (fstat : String → Option String) (p4lines : List String)
    (hk : cfg.BypassKeyphrase = "")
    (h0 : goContains (p4lines.headD "") "no such changelist" = false)
    (hlen : 2 ≤ (p4textOf p4lines).length)
    (h2 : (p4infoOf p4lines).length ≠ 0) :
    app cfg fstat p4lines = RunOutcome.bypassed ∧
      verdictOf (app cfg fstat p4lines) = some (true, []) := by
  have h1 : (p4textOf p4lines).length ≠ 0 := by omega
  have h3 : ((p4textOf p4lines).drop 1).any (fun line => goContains line cfg.BypassKeyphrase) = true := by
    rw [hk]
    rcases hd : (p4textOf p4lines).drop 1 with _ | ⟨a, rest⟩
    · exfalso
      have hlen2 : ((p4textOf p4lines).drop 1).length = (p4textOf p4lines).length - 1 :=
        List.length_drop 1 _
      rw [hd] at hlen2
      simp at hlen2
      omega
    · simp [goContains_nil_pat]
  have happ : app cfg fstat p4lines = RunOutcome.bypassed := by
    unfold app
    rw [h0, h3]
    simp [h1, h2]
  exact ⟨happ, by rw [happ]; rfl⟩

/-- C10 counterexample: an empty key-phrase with two header lines but an empty
file-record block is the hard empty-report error, not a bypass, so bypass does
not hold regardless of the file records. -/
theorem p4unity_c10_counterexample :
    cfgEmptyKey.BypassKeyphrase = "" ∧
      2 ≤ (p4textOf linesTwoHeaders).length ∧
      app cfgEmptyKey fstatEmptyOut linesTwoHeaders = RunOutcome.emptyFileRecords ∧
      app cfgEmptyKey fstatEmptyOut linesTwoHeaders ≠ RunOutcome.bypassed := by
  decide

/-- C10 witness: the empty key-phrase bypasses a two-header report once it has
at least one file record. -/
theorem p4unity_c10_witness :
    app cfgEmptyKey fstatEmptyOut linesTwoHeadersOneRecord = RunOutcome.bypassed ∧
      verdictOf (app cfgEmptyKey fstatEmptyOut linesTwoHeadersOneRecord) = some (true, []) :=
  p4unity_c10 cfgEmptyKey fstatEmptyOut linesTwoHeadersOneRecord rfl (by decide) (by decide)
    (by decide)
